import Mathlib

/-!
A shallow embedding of the Sight API Go client (package `sight`, plus the
duplicated client code in the CLI's `main.go`), covering the request-building
phase of `RecognizeCfg` (MIME inference, file reads), the initial-exchange
branching, and the background polling/reassembly goroutine.

Modelling conventions:
- Go `int` fields of wire data (`FileIndex`, `PageNumber`, `NumberOfPagesInFile`)
  are `Int`; none of the verified behaviour involves 64-bit overflow.
- The Go map `map[int][]bool` is an association list with first-match lookup
  and in-place replacement on insert.
- Region payloads (`RecognizedText`) are opaque to the core (relayed verbatim,
  never inspected), so they are a type parameter `α`.
- Go runtime panics (negative-length `make`, out-of-range slice index) are
  modelled as `none` / a `panicked` outcome: the goroutine dies and the
  channel is never closed.
- The network environment is passed in explicitly: the initial exchange as an
  `InitialResult`, and the poll loop's successive exchanges as a finite script
  `List PollResponse` (the loop itself is unbounded; a run over a script
  models the loop's behaviour on that window of server responses).
-/

namespace Sight

/-- Wire shape of one recognized page (`RecognizedPage` in the Go source);
region content is opaque to the core and is modelled by the parameter `α`. -/
structure RecognizedPage (α : Type) where
  error : String
  fileIndex : Int
  pageNumber : Int
  numberOfPagesInFile : Int
  recognizedText : List α
  base64Image : String
deriving DecidableEq, Repr

/-- The tracker state `fileIndex2HaveSeenPage : map[int][]bool`, as an
association list. -/
abbrev SeenMap : Type := List (Int × List Bool)

/-- Go map read `m[k]` with its `ok` flag: first matching key. -/
def mapLookup (m : SeenMap) (k : Int) : Option (List Bool) :=
  match m with
  | [] => none
  | (k', v) :: rest => if k = k' then some v else mapLookup rest k

/-- Go map write `m[k] = v`: replaces the binding if present, else adds it. -/
def mapInsert (m : SeenMap) (k : Int) (v : List Bool) : SeenMap :=
  match m with
  | [] => [(k, v)]
  | (k', v') :: rest =>
    if k = k' then (k, v) :: rest else (k', v') :: mapInsert rest k v

/-- `make([]bool, n, n)`: a negative length is a Go runtime panic (`none`). -/
def makeBoolSlice (n : Int) : Option (List Bool) :=
  if n < 0 then none else some (List.replicate n.toNat false)

/-- The inner loop over `haveSeenPage`: all slots true. -/
def haveSeenAllPagesInFile (s : List Bool) : Bool :=
  s.all (fun v => v)

/-- One file's clause of the completeness check: an entry exists and all its
slots are true. -/
def fileCounted (m : SeenMap) (f : Int) : Bool :=
  match mapLookup m f with
  | none => false
  | some s => haveSeenAllPagesInFile s

/-- The completeness check at the bottom of each poll iteration
(`haveSeenEverything` in the Go source): every `fileIndex` in
`[0, numFiles)` has an entry whose slots are all true. -/
def haveSeenEverything (m : SeenMap) (numFiles : Nat) : Bool :=
  (List.range numFiles).all (fun fi => fileCounted m (Int.ofNat fi))

/-! ### MIME-type inference

`RecognizeCfg` (package `sight`) lowercases the filename suffix before
matching; the duplicated client inside the CLI's `main.go` (`Recognize`)
matches the raw suffix. Go's `strings.ToLower` agrees with ASCII lowering on
the relevant comparisons: the extension literals are pure ASCII, and no
non-ASCII rune lowercases to a letter occurring in them, so a character-level
model with ASCII lowering is observationally equivalent to the byte-level Go
code on every input. -/

/-- ASCII lowering, the fragment of `strings.ToLower` these comparisons can
observe. -/
def goToLowerChar (c : Char) : Char :=
  if 'A' ≤ c ∧ c ≤ 'Z' then Char.ofNat (c.toNat + 32) else c

/-- Go slice expression `fp[len(fp)-n : len(fp)]` (used only under a length
guard). -/
def sliceFrom (fp : List Char) (n : Nat) : List Char :=
  fp.drop (fp.length - n)

/-- MIME inference of `RecognizeCfg` in the `sight` package
(src/unnamed/part_000 lines 237-259): lowercased suffix match. -/
def mimeTypeOfPath (fp : List Char) : Option String :=
  if fp.length < 4 then none
  else if (sliceFrom fp 4).map goToLowerChar = ".bmp".toList then some "image/bmp"
  else if (sliceFrom fp 4).map goToLowerChar = ".gif".toList then some "image/gif"
  else if (sliceFrom fp 4).map goToLowerChar = ".pdf".toList then some "application/pdf"
  else if (sliceFrom fp 4).map goToLowerChar = ".png".toList then some "image/png"
  else if (sliceFrom fp 4).map goToLowerChar = ".jpg".toList then some "image/jpg"
  else if 5 ≤ fp.length ∧ (sliceFrom fp 5).map goToLowerChar = ".jpeg".toList then
    some "image/jpeg"
  else none

/-- MIME inference of the CLI's duplicated `Recognize` (src/main.go lines
86-108): identical except the suffix is *not* lowercased. -/
def mimeTypeOfPathCli (fp : List Char) : Option String :=
  if fp.length < 4 then none
  else if sliceFrom fp 4 = ".bmp".toList then some "image/bmp"
  else if sliceFrom fp 4 = ".gif".toList then some "image/gif"
  else if sliceFrom fp 4 = ".pdf".toList then some "application/pdf"
  else if sliceFrom fp 4 = ".png".toList then some "image/png"
  else if sliceFrom fp 4 = ".jpg".toList then some "image/jpg"
  else if 5 ≤ fp.length ∧ sliceFrom fp 5 = ".jpeg".toList then some "image/jpeg"
  else none

/-- Spec-side predicate: `fp` ends (exactly) with the extension `ext`. -/
def endsWithExact (fp : List Char) (ext : String) : Bool :=
  ext.toList.isSuffixOf fp

/-- Spec-side predicate: `fp` ends with `ext` up to ASCII case. -/
def lowerEndsWith (fp : List Char) (ext : String) : Bool :=
  ext.toList.isSuffixOf (fp.map goToLowerChar)

/-- Modelled from the spec's words ("maps exactly the extensions {.bmp, .gif,
.pdf, .png, .jpg, .jpeg} to their MIME types"), case-sensitive variant: a
pure suffix lookup. -/
def specMimeCS (fp : List Char) : Option String :=
  if endsWithExact fp ".bmp" then some "image/bmp"
  else if endsWithExact fp ".gif" then some "image/gif"
  else if endsWithExact fp ".pdf" then some "application/pdf"
  else if endsWithExact fp ".png" then some "image/png"
  else if endsWithExact fp ".jpg" then some "image/jpg"
  else if endsWithExact fp ".jpeg" then some "image/jpeg"
  else none

/-- Modelled from the spec's words, case-insensitive variant. (The six
suffix tests are pairwise mutually exclusive, so their order is
immaterial.) -/
def specMimeCI (fp : List Char) : Option String :=
  if lowerEndsWith fp ".bmp" then some "image/bmp"
  else if lowerEndsWith fp ".gif" then some "image/gif"
  else if lowerEndsWith fp ".pdf" then some "application/pdf"
  else if lowerEndsWith fp ".png" then some "image/png"
  else if lowerEndsWith fp ".jpg" then some "image/jpg"
  else if lowerEndsWith fp ".jpeg" then some "image/jpeg"
  else none

lemma suffix_iff_slice (ext fp : List Char) :
    ext <:+ fp ↔ ext.length ≤ fp.length ∧ sliceFrom fp ext.length = ext := by
  constructor
  · rintro ⟨t, rfl⟩
    refine ⟨by simp, ?_⟩
    unfold sliceFrom
    rw [List.length_append, Nat.add_sub_cancel]
    simp
  · rintro ⟨hle, heq⟩
    exact heq ▸ List.drop_suffix _ _

lemma sliceFrom_map (f : Char → Char) (fp : List Char) (n : Nat) :
    sliceFrom (fp.map f) n = (sliceFrom fp n).map f := by
  unfold sliceFrom
  rw [List.length_map, List.map_drop]

lemma sliceFrom_append (pre fp : List Char) (n : Nat) (h : n ≤ fp.length) :
    sliceFrom (pre ++ fp) n = sliceFrom fp n := by
  unfold sliceFrom
  rw [List.length_append,
    show pre.length + fp.length - n = pre.length + (fp.length - n) by omega,
    List.drop_append]

/-- The library inference is the CLI inference applied to the lowered path. -/
lemma mimeTypeOfPath_eq_cli_lower (fp : List Char) :
    mimeTypeOfPath fp = mimeTypeOfPathCli (fp.map goToLowerChar) := by
  unfold mimeTypeOfPath mimeTypeOfPathCli
  rw [List.length_map, sliceFrom_map, sliceFrom_map]

/-- The CLI inference agrees pointwise with the spec-modelled case-sensitive
suffix lookup. -/
lemma mimeTypeOfPathCli_eq_spec (fp : List Char) :
    mimeTypeOfPathCli fp = specMimeCS fp := by
  have bridge : ∀ ext : List Char,
      (ext.isSuffixOf fp = true) ↔ ext.length ≤ fp.length ∧ sliceFrom fp ext.length = ext := by
    intro ext
    rw [List.isSuffixOf_iff_suffix, suffix_iff_slice]
  unfold mimeTypeOfPathCli specMimeCS endsWithExact
  by_cases hlen : fp.length < 4
  · have hfail : ∀ ext : List Char, 4 ≤ ext.length → ¬ (ext.isSuffixOf fp = true) := by
      intro ext he hsuf
      have := List.IsSuffix.length_le (List.isSuffixOf_iff_suffix.mp hsuf)
      omega
    rw [if_pos hlen,
      if_neg (hfail ".jpeg".toList (by decide)),
      if_neg (hfail ".bmp".toList (by decide)),
      if_neg (hfail ".gif".toList (by decide)),
      if_neg (hfail ".pdf".toList (by decide)),
      if_neg (hfail ".png".toList (by decide)),
      if_neg (hfail ".jpg".toList (by decide))]
  · have h4 : 4 ≤ fp.length := by omega
    have b4 : ∀ ext : List Char, ext.length = 4 →
        ((ext.isSuffixOf fp = true) ↔ sliceFrom fp 4 = ext) := by
      intro ext he
      rw [bridge, he]
      exact and_iff_right h4
    have b5 : ((".jpeg".toList.isSuffixOf fp = true) ↔
        5 ≤ fp.length ∧ sliceFrom fp 5 = ".jpeg".toList) := by
      rw [bridge]; rfl
    rw [if_neg hlen]
    simp only [b4 ".bmp".toList rfl, b4 ".gif".toList rfl,
      b4 ".pdf".toList rfl, b4 ".png".toList rfl,
      b4 ".jpg".toList rfl, b5]

lemma mimeTypeOfPath_eq_spec (fp : List Char) :
    mimeTypeOfPath fp = specMimeCI fp := by
  rw [mimeTypeOfPath_eq_cli_lower, mimeTypeOfPathCli_eq_spec]
  rfl

/-! ### The completion tracker and the polling goroutine -/

/-- One observation of the tracker (source lines 360-366, before the push):
lazy (re)allocation when the fileIndex is absent or holds an empty sequence,
then the slot write for a positive page number. `none` models a Go runtime
panic (negative-length `make`, or an out-of-range slice index). -/
def observeAlloc {α : Type} (m : SeenMap) (p : RecognizedPage α) : Option SeenMap :=
  match mapLookup m p.fileIndex with
  | none => (makeBoolSlice p.numberOfPagesInFile).map (mapInsert m p.fileIndex)
  | some s =>
    if s.length = 0 then
      (makeBoolSlice p.numberOfPagesInFile).map (mapInsert m p.fileIndex)
    else some m

/-- The slot write `fileIndex2HaveSeenPage[p.FileIndex][p.PageNumber-1] = true`
for a positive page number; an out-of-range index is a Go runtime panic
(`none`). -/
def observeWrite {α : Type} (m1 : SeenMap) (p : RecognizedPage α) : Option SeenMap :=
  match mapLookup m1 p.fileIndex with
  | none => none
  | some s =>
    if (p.pageNumber - 1).toNat < s.length then
      some (mapInsert m1 p.fileIndex (s.set (p.pageNumber - 1).toNat true))
    else none

def observe {α : Type} (m : SeenMap) (p : RecognizedPage α) : Option SeenMap :=
  match observeAlloc m p with
  | none => none
  | some m1 =>
    if 0 < p.pageNumber then observeWrite m1 p
    else some m1

/-- The `for _, p := range pages.Pages` loop: observe then push, page by
page; a panic abandons the rest of the batch (`none`), keeping the pages
already pushed. -/
def processPages {α : Type} (m : SeenMap) :
    List (RecognizedPage α) → List (RecognizedPage α) × Option SeenMap
  | [] => ([], some m)
  | p :: rest =>
    match observe m p with
    | none => ([], none)
    | some m' =>
      let (pushed, res) := processPages m' rest
      (p :: pushed, res)

/-- One server interaction of the polling loop, as seen by the client:
a transport-level failure (`http.NewRequest` or `httpClient.Do` — the two Go
branches are identical), or a completed exchange carrying a status code and,
for status 200, the decode result of the body (`none` = decode failure). -/
inductive PollResponse (α : Type) where
  | transportErr
  | exchange (status : Nat) (decoded : Option (List (RecognizedPage α)))
deriving DecidableEq, Repr

/-- The goroutine's mutable state between poll iterations. -/
structure PollState where
  fileIndex2HaveSeenPage : SeenMap
  errorCount : Nat
deriving DecidableEq, Repr

/-- Events observable on `pagesChan`. -/
inductive StreamEvent (α : Type) where
  | push (p : RecognizedPage α)
  | close
deriving DecidableEq, Repr

/-- How a run of the background task ended. -/
inductive RunResult where
  /-- Closed after the consecutive-error counter reached 5. -/
  | closedFailed
  /-- Closed because a poll returned status 401. -/
  | closedAuth
  /-- Closed because `haveSeenEverything` became true. -/
  | closedDone
  /-- Closed by the synchronous (no polling handle) emission. -/
  | closedSync
  /-- The script of server responses ran out with the loop still polling. -/
  | running (s : PollState)
  /-- The goroutine died of a runtime panic; the channel is never closed. -/
  | panicked
deriving DecidableEq, Repr

/-- Whether a run result is one of the terminal close states. -/
def RunResult.isClosed : RunResult → Bool
  | .closedFailed | .closedAuth | .closedDone | .closedSync => true
  | .running _ | .panicked => false

/-- Continuation decision of one poll iteration. -/
inductive StepNext where
  | cont (s : PollState)
  | halt (r : RunResult)
deriving DecidableEq, Repr

/-- One iteration of the polling loop (source lines 316-392), given the
server's behaviour for this iteration. -/
def pollStep {α : Type} (numFiles : Nat) (s : PollState) :
    PollResponse α → List (StreamEvent α) × StepNext
  | .transportErr =>
    let ec := s.errorCount + 1
    if 5 ≤ ec then ([.close], .halt .closedFailed)
    else ([], .cont { s with errorCount := ec })
  | .exchange status decoded =>
    if status = 401 then ([.close], .halt .closedAuth)
    else if status ≠ 200 then
      -- the Go code does NOT increment errorCount here
      if 5 ≤ s.errorCount then ([.close], .halt .closedFailed)
      else ([], .cont s)
    else
      match decoded with
      | none =>
        let ec := s.errorCount + 1
        if 5 ≤ ec then ([.close], .halt .closedFailed)
        else ([], .cont { s with errorCount := ec })
      | some pages =>
        let (pushed, res) := processPages s.fileIndex2HaveSeenPage pages
        match res with
        | none => (pushed.map .push, .halt .panicked)
        | some m' =>
          if haveSeenEverything m' numFiles then
            (pushed.map .push ++ [.close], .halt .closedDone)
          else
            (pushed.map .push, .cont { fileIndex2HaveSeenPage := m',
                                       errorCount := s.errorCount })

/-- The polling loop run against a finite script of server responses. -/
def runPoll {α : Type} (numFiles : Nat) (s : PollState) :
    List (PollResponse α) → List (StreamEvent α) × RunResult
  | [] => ([], .running s)
  | r :: rest =>
    match pollStep numFiles s r with
    | (evs, .halt res) => (evs, res)
    | (evs, .cont s') =>
      let (evs', res) := runPoll numFiles s' rest
      (evs ++ evs', res)

/-! ### The caller-facing call: request building, initial exchange, handoff -/

/-- Decoded body of the initial 200 response (`either` in the Go source). -/
structure InitialBody (α : Type) where
  pollingURL : String
  recognizedText : List α
  base64Image : String
deriving DecidableEq, Repr

/-- The initial exchange as seen by the client: a transport failure, or a
response with a status code, whether `ioutil.ReadAll` on the body succeeds
(consulted only on the non-200 path), and the body's decode result
(consulted only on the 200 path; `none` = decode failure). -/
inductive InitialResult (α : Type) where
  | transportErr
  | response (status : Nat) (bodyReadOk : Bool) (decoded : Option (InitialBody α))
deriving DecidableEq, Repr

/-- The synchronous errors `RecognizeCfg` can return (each corresponds to one
`return nil, err` before the goroutine starts). -/
inductive RecognizeErr where
  /-- MIME inference failed for this path (too short or unmatched suffix). -/
  | badPath (fp : List Char)
  /-- `ioutil.ReadFile` failed for this path. -/
  | readErr (fp : List Char)
  /-- The initial `httpClient.Do` failed. -/
  | initTransport
  /-- Status 401 on the initial exchange. -/
  | unauthorized
  /-- Non-200, non-401 status on the initial exchange (with whether the body
  could be read, which selects between the two Go error messages). -/
  | non200 (status : Nat) (bodyReadOk : Bool)
  /-- The initial 200 body failed to decode. -/
  | initDecodeFailure
deriving DecidableEq, Repr

/-- The MIME-inference loop of `RecognizeCfg`: first failing path wins. -/
def inferMimeTypes : List (List Char) → Except (List Char) (List String)
  | [] => .ok []
  | fp :: rest =>
    match mimeTypeOfPath fp with
    | none => .error fp
    | some m =>
      match inferMimeTypes rest with
      | .error e => .error e
      | .ok ms => .ok (m :: ms)

/-- The file-reading loop of `RecognizeCfg`, against a read oracle
(`none` = `ioutil.ReadFile` error); file contents are opaque here. -/
def readAllFiles (readFile : List Char → Option String) :
    List (List Char) → Except (List Char) (List String)
  | [] => .ok []
  | fp :: rest =>
    match readFile fp with
    | none => .error fp
    | some c =>
      match readAllFiles readFile rest with
      | .error e => .error e
      | .ok cs => .ok (c :: cs)

/-- The whole of `RecognizeCfg` (src/unnamed/part_000 lines 229-395), with
the environment passed in explicitly: the read oracle, the initial
exchange's outcome, and the script of poll exchanges. JSON-encoding the
request cannot fail and is not modelled. On success the returned value is
the observable behaviour of `pagesChan`: the event trace of the background
goroutine together with how the goroutine ended on this script. -/
def recognizeCfg {α : Type} (filePaths : List (List Char))
    (readFile : List Char → Option String) (initial : InitialResult α)
    (script : List (PollResponse α)) :
    Except RecognizeErr (List (StreamEvent α) × RunResult) :=
  match inferMimeTypes filePaths with
  | .error fp => .error (.badPath fp)
  | .ok _ =>
    match readAllFiles readFile filePaths with
    | .error fp => .error (.readErr fp)
    | .ok _ =>
      match initial with
      | .transportErr => .error .initTransport
      | .response status bodyReadOk decoded =>
        if status = 401 then .error .unauthorized
        else if status ≠ 200 then .error (.non200 status bodyReadOk)
        else
          match decoded with
          | none => .error .initDecodeFailure
          | some body =>
            if body.pollingURL = "" then
              .ok ([.push { error := "", fileIndex := 0, pageNumber := 1,
                            numberOfPagesInFile := 1,
                            recognizedText := body.recognizedText,
                            base64Image := body.base64Image }, .close],
                   .closedSync)
            else
              .ok (runPoll filePaths.length
                    { fileIndex2HaveSeenPage := [], errorCount := 0 } script)

/-- Pages pushed onto the channel, in order, per a trace. -/
def pushedPages {α : Type} (tr : List (StreamEvent α)) : List (RecognizedPage α) :=
  tr.filterMap (fun e => match e with | .push p => some p | .close => none)

/-- Number of close events in a trace. -/
def closeCount {α : Type} (tr : List (StreamEvent α)) : Nat :=
  tr.countP (fun e => match e with | .push _ => false | .close => true)

/-- The page batch a poll response carries, if it is a 200 whose body
decodes. -/
def pollBatch {α : Type} : PollResponse α → Option (List (RecognizedPage α))
  | .exchange c (some ps) => if c = 200 then some ps else none
  | _ => none

/-- The page batches carried by the 200-with-decodable-body responses of a
script, in order. -/
def batchesOf {α : Type} (script : List (PollResponse α)) :
    List (List (RecognizedPage α)) :=
  script.filterMap pollBatch

/-- Slot `k` of fileIndex `f` is marked true in the tracker. -/
def slotTrue (m : SeenMap) (f : Int) (k : Nat) : Prop :=
  ∃ s, mapLookup m f = some s ∧ s[k]? = some true

/-- The observation would (re)allocate the sequence for `f`: the condition
`!ok || len(haveSeenPage) == 0` of the Go source. -/
def allocNeeded (m : SeenMap) (f : Int) : Bool :=
  match mapLookup m f with
  | none => true
  | some s => s.length = 0

/-- Poll responses the error counter counts: a transport-level failure or a
200 whose body fails to decode. (Non-200 statuses are NOT counted by the
code.) -/
def isCountedFailure {α : Type} : PollResponse α → Bool
  | .transportErr => true
  | .exchange c d => decide (c = 200) && d.isNone

/-- Poll responses that are failures of some kind: no 401 and no decodable
batch, so the loop neither auth-closes nor processes pages. -/
def failureOnly {α : Type} : PollResponse α → Prop
  | .transportErr => True
  | .exchange c d => c ≠ 401 ∧ (c = 200 → d = none)

/-- `C1`: the batch-completeness check is true iff every fileIndex in
`[0, n)` has a boolean sequence in the map with every entry true; in
particular it is false whenever some in-range fileIndex was never observed.
(Determinism under repeated evaluation is definitional here: the check is a
pure function of the unchanged state.) -/
theorem c1_isBatchComplete_iff (m : SeenMap) (n : Nat) :
    (haveSeenEverything m n = true ↔
      ∀ i < n, ∃ s, mapLookup m (Int.ofNat i) = some s ∧
        haveSeenAllPagesInFile s = true) ∧
    (∀ i < n, mapLookup m (Int.ofNat i) = none →
      haveSeenEverything m n = false) := by
  constructor
  · rw [haveSeenEverything, List.all_eq_true]
    constructor
    · intro h i hi
      have := h i (List.mem_range.mpr hi)
      rw [fileCounted] at this
      cases hl : mapLookup m (Int.ofNat i) with
      | none => rw [hl] at this; exact absurd this (by simp)
      | some s => rw [hl] at this; exact ⟨s, rfl, this⟩
    · intro h x hx
      obtain ⟨s, hs, hall⟩ := h x (List.mem_range.mp hx)
      rw [fileCounted, hs]; exact hall
  · intro i hi hnone
    rw [haveSeenEverything]
    by_contra hne
    have hall := List.all_eq_true.mp (Bool.of_not_eq_false hne) i
      (List.mem_range.mpr hi)
    rw [fileCounted, hnone] at hall
    simp at hall

/-- Witness for `c1_isBatchComplete_iff`: a one-file batch whose only file
has its single slot true is complete. -/
theorem c1_isBatchComplete_witness :
    haveSeenEverything [((0 : Int), [true])] 1 = true :=
  (c1_isBatchComplete_iff [((0 : Int), [true])] 1).1.mpr
    (by
      intro i hi
      interval_cases i
      exact ⟨[true], rfl, rfl⟩)

/-- A counted failure increments the counter and closes exactly when it
reaches 5 (the two transport branches and the decode-failure branch of the
Go source are identical). -/
lemma pollStep_counted {α : Type} (n : Nat) (s : PollState) (r : PollResponse α)
    (h : r = .transportErr ∨ r = .exchange 200 none) :
    pollStep n s r =
      (if 5 ≤ s.errorCount + 1 then ([.close], .halt .closedFailed)
       else ([], .cont { s with errorCount := s.errorCount + 1 })) := by
  rcases h with rfl | rfl <;> rfl

/-- A non-200, non-401 status leaves the loop state untouched whenever the
counter is below 5 (which it always is in reachable states). -/
lemma pollStep_non200 {α : Type} (n : Nat) (s : PollState) (c : Nat)
    (d : Option (List (RecognizedPage α))) (h401 : c ≠ 401) (h200 : c ≠ 200)
    (hec : s.errorCount < 5) :
    pollStep n s (.exchange c d) = ([], .cont s) := by
  simp only [pollStep]
  rw [if_neg h401, if_pos h200, if_neg (by omega)]

lemma pollStep_cont_errorCount {α : Type} (n : Nat) (s : PollState)
    (r : PollResponse α) (evs : List (StreamEvent α)) (s₁ : PollState)
    (h : pollStep n s r = (evs, .cont s₁)) (hs : s.errorCount < 5) :
    s₁.errorCount < 5 := by
  cases r with
  | transportErr =>
    simp only [pollStep] at h
    split at h
    · exact absurd h (by simp)
    · rename_i hle
      injection h with h1 h2
      injection h2 with h3
      subst h3
      show s.errorCount + 1 < 5
      omega
  | exchange c d =>
    simp only [pollStep] at h
    split at h
    · exact absurd h (by simp)
    · split at h
      · split at h
        · exact absurd h (by simp)
        · injection h with h1 h2
          injection h2 with h3
          subst h3
          omega
      · cases d with
        | none =>
          simp only at h
          split at h
          · exact absurd h (by simp)
          · rename_i hle
            injection h with h1 h2
            injection h2 with h3
            subst h3
            show s.errorCount + 1 < 5
            omega
        | some pages =>
          simp only at h
          split at h
          · exact absurd h (by simp)
          · split at h
            · exact absurd h (by simp)
            · injection h with h1 h2
              injection h2 with h3
              subst h3
              show s.errorCount < 5
              omega

lemma pollStep_halt_not_running {α : Type} (n : Nat) (s : PollState)
    (r : PollResponse α) (evs : List (StreamEvent α)) (s₁ : PollState)
    (h : pollStep n s r = (evs, .halt (.running s₁))) : False := by
  cases r with
  | transportErr =>
    simp only [pollStep] at h
    split at h <;> exact absurd h (by simp)
  | exchange c d =>
    simp only [pollStep] at h
    split at h
    · exact absurd h (by simp)
    · split at h
      · split at h <;> exact absurd h (by simp)
      · cases d with
        | none =>
          simp only at h
          split at h <;> exact absurd h (by simp)
        | some pages =>
          simp only at h
          split at h
          · exact absurd h (by simp)
          · split at h <;> exact absurd h (by simp)

lemma runPoll_running_errorCount {α : Type} (n : Nat)
    (script : List (PollResponse α)) :
    ∀ s s', s.errorCount < 5 → (runPoll n s script).2 = .running s' →
      s'.errorCount < 5 := by
  induction script with
  | nil =>
    intro s s' hs h
    simp only [runPoll] at h
    injection h with h1
    subst h1
    exact hs
  | cons r rest ih =>
    intro s s' hs h
    simp only [runPoll] at h
    rcases hps : pollStep n s r with ⟨evs, nxt⟩
    rw [hps] at h
    cases nxt with
    | halt res =>
      simp only at h
      subst h
      exact (pollStep_halt_not_running n s r evs s' hps).elim
    | cont s₁ =>
      simp only at h
      exact ih s₁ s' (pollStep_cont_errorCount n s r evs s₁ hps hs) h

lemma runPoll_failureOnly {α : Type} (n : Nat) (script : List (PollResponse α)) :
    ∀ s : PollState, s.errorCount < 5 → (∀ r ∈ script, failureOnly r) →
    (s.errorCount + script.countP isCountedFailure < 5 →
      runPoll n s script = ([], .running { s with
        errorCount := s.errorCount + script.countP isCountedFailure })) ∧
    (5 ≤ s.errorCount + script.countP isCountedFailure →
      runPoll n s script = ([.close], .closedFailed)) := by
  induction script with
  | nil =>
    intro s hs _
    refine ⟨fun _ => ?_, fun hge => ?_⟩
    · simp [runPoll]
    · rw [List.countP_nil] at hge
      omega
  | cons r rest ih =>
    intro s hs hfo
    have hfor := hfo r (List.mem_cons_self r rest)
    have hforest : ∀ x ∈ rest, failureOnly x :=
      fun x hx => hfo x (List.mem_cons_of_mem r hx)
    have hclass : (r = .transportErr ∨ r = .exchange 200 none) ∨
        (∃ c d, r = .exchange c d ∧ c ≠ 401 ∧ c ≠ 200) := by
      cases r with
      | transportErr => exact .inl (.inl rfl)
      | exchange c d =>
        rcases hfor with ⟨h401, h200⟩
        by_cases hc : c = 200
        · subst hc
          exact .inl (.inr (by rw [h200 rfl]))
        · exact .inr ⟨c, d, rfl, h401, hc⟩
    rcases hclass with hcounted | ⟨c, d, rfl, h401, hc200⟩
    · have hcnt : isCountedFailure r = true := by
        rcases hcounted with rfl | rfl <;> rfl
      rw [List.countP_cons, hcnt, if_pos rfl]
      by_cases h5 : 5 ≤ s.errorCount + 1
      · refine ⟨fun hlt => absurd hlt (by omega), fun _ => ?_⟩
        have step := pollStep_counted n s r hcounted
        rw [if_pos h5] at step
        simp only [runPoll, step]
      · have step := pollStep_counted n s r hcounted
        rw [if_neg h5] at step
        have ihs := ih { s with errorCount := s.errorCount + 1 }
          (by show s.errorCount + 1 < 5; omega) hforest
        refine ⟨fun hlt => ?_, fun hge => ?_⟩
        · have h2 := ihs.1
            (by show s.errorCount + 1 + List.countP isCountedFailure rest < 5; omega)
          simp only [runPoll, step, h2]
          simp only [List.nil_append]
          refine congrArg _ (congrArg _ ?_)
          simp only [PollState.mk.injEq]
          exact ⟨trivial, by omega⟩
        · have h2 := ihs.2
            (by show 5 ≤ s.errorCount + 1 + List.countP isCountedFailure rest; omega)
          simp only [runPoll, step, h2]
          simp only [List.nil_append]
    · have step := pollStep_non200 n s c d h401 hc200 hs
      have hcnt : isCountedFailure (PollResponse.exchange (α := α) c d) = false := by
        simp [isCountedFailure, hc200]
      rw [List.countP_cons, hcnt]
      simp only [Bool.false_eq_true, if_false, Nat.add_zero]
      have ihs := ih s hs hforest
      refine ⟨fun hlt => ?_, fun hge => ?_⟩
      · have h2 := ihs.1 hlt
        simp only [runPoll, step, h2]
        simp only [List.nil_append]
      · have h2 := ihs.2 hge
        simp only [runPoll, step, h2]
        simp only [List.nil_append]

/-- `C2` counterexample: five consecutive failed polls with a non-200,
non-401 status (here 500) do not increment the counter and do not close the
stream — the loop is still polling with `errorCount = 0` afterwards,
contradicting the claim that every such failed poll increments the counter
and that 5 consecutive failed polls close the stream. -/
theorem c2_counterexample :
    runPoll (α := Nat) 1 { fileIndex2HaveSeenPage := [], errorCount := 0 }
      (List.replicate 5 (PollResponse.exchange 500 none)) =
      ([], .running { fileIndex2HaveSeenPage := [], errorCount := 0 }) := by
  decide

/-- `C2` (amended): transport-level and body-decode failures each increment
the consecutive-error counter and close the stream as soon as it reaches 5;
a non-200 status other than 401 neither increments the counter nor (from any
reachable state, where the counter is below 5) closes the stream; a
successful exchange never resets the counter; consequently, on any script of
failure-only responses the stream closes prematurely exactly when the
cumulative number of transport/decode failures — consecutive or not —
reaches 5. -/
theorem c2_errorCounter_amended {α : Type} (n : Nat) (s : PollState) :
    (∀ r : PollResponse α, (r = .transportErr ∨ r = .exchange 200 none) →
      pollStep n s r =
        (if 5 ≤ s.errorCount + 1 then ([.close], .halt .closedFailed)
         else ([], .cont { s with errorCount := s.errorCount + 1 }))) ∧
    (∀ (c : Nat) (d : Option (List (RecognizedPage α))), c ≠ 401 → c ≠ 200 →
      s.errorCount < 5 → pollStep n s (.exchange c d) = ([], .cont s)) ∧
    (∀ (pages : List (RecognizedPage α)) evs s',
      pollStep n s (.exchange 200 (some pages)) = (evs, .cont s') →
      s'.errorCount = s.errorCount) ∧
    (∀ (script : List (PollResponse α)) s', s.errorCount < 5 →
      (runPoll n s script).2 = .running s' → s'.errorCount < 5) ∧
    (∀ script : List (PollResponse α), s.errorCount < 5 →
      (∀ r ∈ script, failureOnly r) →
      (s.errorCount + script.countP isCountedFailure < 5 →
        runPoll n s script =
          ([], .running { s with
            errorCount := s.errorCount + script.countP isCountedFailure })) ∧
      (5 ≤ s.errorCount + script.countP isCountedFailure →
        runPoll n s script = ([.close], .closedFailed))) := by
  refine ⟨fun r h => pollStep_counted n s r h,
    fun c d h401 h200 hec => pollStep_non200 n s c d h401 h200 hec,
    ?_,
    fun script s' hs h => runPoll_running_errorCount n script s s' hs h,
    fun script hs hfo => runPoll_failureOnly n script s hs hfo⟩
  intro pages evs s' h
  rcases hpp : processPages s.fileIndex2HaveSeenPage pages with ⟨pushed, res⟩
  simp only [pollStep, hpp] at h
  cases res with
  | none => exact absurd h (by simp)
  | some m' =>
    simp only at h
    split at h
    · exact absurd h (by simp)
    · split at h
      · rename_i hne
        exact absurd rfl hne
      · split at h
        · exact absurd h (by simp)
        · injection h with h1 h2
          injection h2 with h3
          subst h3
          rfl

/-- Witness for `c2_errorCounter_amended`: five counted failures from a
fresh state close the stream without completion. -/
theorem c2_errorCounter_witness :
    runPoll (α := Nat) 1 { fileIndex2HaveSeenPage := [], errorCount := 0 }
      (List.replicate 5 PollResponse.transportErr) =
      ([.close], .closedFailed) :=
  ((c2_errorCounter_amended (α := Nat) 1
      { fileIndex2HaveSeenPage := [], errorCount := 0 }).2.2.2.2
    (List.replicate 5 PollResponse.transportErr) (by decide)
    (by
      intro r hr
      rw [List.eq_of_mem_replicate hr]
      trivial)).2 (by decide)

lemma mimeTypeOfPathCli_suffix_only (pre fp : List Char) (h : 5 ≤ fp.length) :
    mimeTypeOfPathCli (pre ++ fp) = mimeTypeOfPathCli fp := by
  have hlen : (pre ++ fp).length = pre.length + fp.length := List.length_append ..
  have h4 : ¬ (pre ++ fp).length < 4 := by rw [hlen]; omega
  have h4' : ¬ fp.length < 4 := by omega
  have h5 : 5 ≤ (pre ++ fp).length := by rw [hlen]; omega
  unfold mimeTypeOfPathCli
  rw [sliceFrom_append pre fp 4 (by omega), sliceFrom_append pre fp 5 (by omega),
    if_neg h4, if_neg h4']
  simp only [h5, h, true_and]

lemma mimeTypeOfPath_suffix_only (pre fp : List Char) (h : 5 ≤ fp.length) :
    mimeTypeOfPath (pre ++ fp) = mimeTypeOfPath fp := by
  rw [mimeTypeOfPath_eq_cli_lower, List.map_append,
    mimeTypeOfPathCli_suffix_only _ _ (by rw [List.length_map]; omega),
    ← mimeTypeOfPath_eq_cli_lower]

lemma inferMimeTypes_error_mem (fps : List (List Char)) (fp : List Char)
    (h : inferMimeTypes fps = .error fp) :
    fp ∈ fps ∧ mimeTypeOfPath fp = none := by
  induction fps with
  | nil => exact absurd h (by simp [inferMimeTypes])
  | cons g rest ih =>
    simp only [inferMimeTypes] at h
    cases hm : mimeTypeOfPath g with
    | none =>
      rw [hm] at h
      injection h with h1
      subst h1
      exact ⟨List.mem_cons_self .., hm⟩
    | some m =>
      rw [hm] at h
      cases hr : inferMimeTypes rest with
      | error e =>
        rw [hr] at h
        injection h with h1
        subst h1
        obtain ⟨hmem, hbad⟩ := ih hr
        exact ⟨List.mem_cons_of_mem g hmem, hbad⟩
      | ok ms => rw [hr] at h; exact absurd h (by simp)

lemma inferMimeTypes_error_of_bad (fps : List (List Char)) (fp : List Char)
    (hmem : fp ∈ fps) (hbad : mimeTypeOfPath fp = none) :
    ∃ e, inferMimeTypes fps = .error e := by
  induction fps with
  | nil => exact absurd hmem (by simp)
  | cons g rest ih =>
    simp only [inferMimeTypes]
    cases hm : mimeTypeOfPath g with
    | none => exact ⟨g, rfl⟩
    | some m =>
      rcases List.mem_cons.mp hmem with rfl | hmem'
      · exact absurd hbad (by rw [hm]; simp)
      · obtain ⟨e, he⟩ := ih hmem'
        rw [he]
        exact ⟨e, rfl⟩

/-- `C3` counterexample: the claim's cited inference code in `main.go`
(`Recognize`, the CLI's duplicated client) is case-SENSITIVE: `a.PNG` is
rejected while `a.png` is accepted, even though the library's `RecognizeCfg`
accepts both. -/
theorem c3_counterexample :
    mimeTypeOfPathCli "a.PNG".toList = none ∧
    mimeTypeOfPathCli "a.png".toList = some "image/png" ∧
    mimeTypeOfPath "a.PNG".toList = some "image/png" := by
  decide

/-- `C3` (amended): the `sight` package's inference (`RecognizeCfg`) depends
only on the filename suffix, is case-insensitive, and maps exactly
{.bmp, .gif, .pdf, .png, .jpg, .jpeg} to their MIME types (it agrees
pointwise with the spec-side case-insensitive suffix lookup); the CLI's
duplicated inference in `main.go` is identical except case-SENSITIVE — it
agrees pointwise with the exact-suffix lookup, and the library inference is
the CLI inference applied to the lowercased path.  For any list of paths
containing a path with no recognized suffix (or too short to carry one), the
call returns the input error for the first such path for every environment,
so no file is read and no network request is made. -/
theorem c3_mimeInference_amended :
    (∀ fp : List Char, mimeTypeOfPath fp = specMimeCI fp) ∧
    (∀ fp : List Char, mimeTypeOfPathCli fp = specMimeCS fp) ∧
    (∀ fp : List Char, mimeTypeOfPath fp = mimeTypeOfPathCli (fp.map goToLowerChar)) ∧
    (∀ pre fp : List Char, 5 ≤ fp.length →
      mimeTypeOfPathCli (pre ++ fp) = mimeTypeOfPathCli fp ∧
      mimeTypeOfPath (pre ++ fp) = mimeTypeOfPath fp) ∧
    (∀ (α : Type) (fps : List (List Char)) (fp : List Char),
      inferMimeTypes fps = .error fp →
      fp ∈ fps ∧ mimeTypeOfPath fp = none ∧
      ∀ (rf : List Char → Option String) (i : InitialResult α)
        (s : List (PollResponse α)),
        recognizeCfg fps rf i s = .error (.badPath fp)) ∧
    (∀ (fps : List (List Char)) (fp : List Char), fp ∈ fps →
      mimeTypeOfPath fp = none → ∃ e, inferMimeTypes fps = .error e) := by
  refine ⟨mimeTypeOfPath_eq_spec, mimeTypeOfPathCli_eq_spec,
    mimeTypeOfPath_eq_cli_lower,
    fun pre fp h => ⟨mimeTypeOfPathCli_suffix_only pre fp h,
      mimeTypeOfPath_suffix_only pre fp h⟩,
    ?_, inferMimeTypes_error_of_bad⟩
  intro α fps fp h
  obtain ⟨hmem, hbad⟩ := inferMimeTypes_error_mem fps fp h
  refine ⟨hmem, hbad, fun rf i s => ?_⟩
  simp only [recognizeCfg, h]

/-- Witness for `c3_mimeInference_amended`: with the single path `ab` (too
short for an extension), the call fails with the input error regardless of
the environment. -/
theorem c3_mimeInference_witness :
    recognizeCfg (α := Nat) ["ab".toList] (fun _ => some "")
      InitialResult.transportErr [] = .error (.badPath "ab".toList) :=
  (c3_mimeInference_amended.2.2.2.2.1 Nat ["ab".toList] "ab".toList
    rfl).2.2 (fun _ => some "") InitialResult.transportErr []

/-- `C4`: when the initial 200 response decodes with an empty `PollingURL`,
the produced stream is exactly one page — `fileIndex = 0`, `pageNumber = 1`,
`numberOfPagesInFile = 1`, empty error, carrying the initial response's
regions and rotated image — followed by the close; and the result is the
same for every poll script, i.e. no poll request is ever consulted. -/
theorem c4_syncMode {α : Type} (fps : List (List Char))
    (rf : List Char → Option String) (b : Bool) (body : InitialBody α)
    (script : List (PollResponse α)) (tr : List (StreamEvent α))
    (res : RunResult) (hp : body.pollingURL = "")
    (h : recognizeCfg fps rf (.response 200 b (some body)) script = .ok (tr, res)) :
    tr = [.push { error := "", fileIndex := 0, pageNumber := 1,
                  numberOfPagesInFile := 1,
                  recognizedText := body.recognizedText,
                  base64Image := body.base64Image }, .close] ∧
    res = .closedSync ∧
    ∀ script' : List (PollResponse α),
      recognizeCfg fps rf (.response 200 b (some body)) script' = .ok (tr, res) := by
  cases hm : inferMimeTypes fps with
  | error fp =>
    simp only [recognizeCfg, hm] at h
    exact absurd h (by simp)
  | ok ms =>
    cases hr : readAllFiles rf fps with
    | error fp =>
      simp only [recognizeCfg, hm, hr] at h
      exact absurd h (by simp)
    | ok cs =>
      simp only [recognizeCfg, hm, hr] at h
      rw [if_neg (by decide : ¬ ((200 : Nat) = 401)),
        if_neg (by decide : ¬ ((200 : Nat) ≠ 200))] at h
      rw [if_pos hp] at h
      injection h with h1
      injection h1 with h2 h3
      subst h2
      subst h3
      refine ⟨rfl, rfl, fun script' => ?_⟩
      simp only [recognizeCfg, hm, hr]
      rw [if_neg (by decide : ¬ ((200 : Nat) = 401)),
        if_neg (by decide : ¬ ((200 : Nat) ≠ 200))]
      rw [if_pos hp]

/-- Witness for `c4_syncMode`: an empty submission with a no-handle 200
response yields the single synthetic page and the close, independent of the
poll script. -/
theorem c4_syncMode_witness :
    recognizeCfg (α := Nat) [] (fun _ => none)
      (.response 200 true (some { pollingURL := "", recognizedText := [],
                                  base64Image := "" }))
      [PollResponse.transportErr] =
      .ok ([.push { error := "", fileIndex := 0, pageNumber := 1,
                    numberOfPagesInFile := 1, recognizedText := [],
                    base64Image := "" }, .close], .closedSync) :=
  (c4_syncMode (α := Nat) [] (fun _ => none) true
    { pollingURL := "", recognizedText := [], base64Image := "" } []
    [.push { error := "", fileIndex := 0, pageNumber := 1,
             numberOfPagesInFile := 1, recognizedText := [],
             base64Image := "" }, .close] .closedSync rfl rfl).2.2
    [PollResponse.transportErr]

/-- `C6`: a 401 on the initial exchange makes the call fail synchronously
with the unauthorized error (no stream value is produced), while a 401 on
any poll closes the stream immediately — from any counter value, with no
pages and no error surfaced, only the close event. -/
theorem c6_unauthorized {α : Type} :
    (∀ (fps : List (List Char)) (rf : List Char → Option String) (b : Bool)
       (d : Option (InitialBody α)) (script : List (PollResponse α))
       (ms cs : List String),
      inferMimeTypes fps = .ok ms → readAllFiles rf fps = .ok cs →
      recognizeCfg fps rf (.response 401 b d) script = .error .unauthorized) ∧
    (∀ (n : Nat) (s : PollState) (d : Option (List (RecognizedPage α)))
       (rest : List (PollResponse α)),
      runPoll n s (.exchange 401 d :: rest) = ([.close], .closedAuth)) := by
  constructor
  · intro fps rf b d script ms cs hm hr
    simp only [recognizeCfg, hm, hr]
    rw [if_pos trivial]
  · intro n s d rest
    rfl

/-- Witness for `c6_unauthorized`: a concrete 401 initial exchange fails
with the unauthorized error, and a concrete 401 poll from a nonzero counter
closes at once. -/
theorem c6_unauthorized_witness :
    recognizeCfg (α := Nat) ["a.png".toList] (fun _ => some "")
      (.response 401 true none) [] = .error .unauthorized :=
  c6_unauthorized.1 ["a.png".toList] (fun _ => some "") true none []
    ["image/png"] [""] rfl rfl

lemma mapLookup_insert_self (m : SeenMap) (k : Int) (v : List Bool) :
    mapLookup (mapInsert m k v) k = some v := by
  induction m with
  | nil => simp [mapInsert, mapLookup]
  | cons kv rest ih =>
    obtain ⟨k', v'⟩ := kv
    by_cases h : k = k'
    · subst h
      simp [mapInsert, mapLookup]
    · simp [mapInsert, mapLookup, h, ih]

lemma mapLookup_insert_ne (m : SeenMap) (k j : Int) (v : List Bool)
    (h : j ≠ k) : mapLookup (mapInsert m k v) j = mapLookup m j := by
  induction m with
  | nil => simp [mapInsert, mapLookup, h]
  | cons kv rest ih =>
    obtain ⟨k', v'⟩ := kv
    by_cases hk : k = k'
    · subst hk
      simp [mapInsert, mapLookup, h]
    · by_cases hj : j = k'
      · subst hj
        simp [mapInsert, mapLookup, hk, h]
      · simp [mapInsert, mapLookup, hk, hj, ih]

lemma observeAlloc_none_iff {α : Type} (m : SeenMap) (p : RecognizedPage α) :
    observeAlloc m p = none ↔
      (allocNeeded m p.fileIndex = true ∧ p.numberOfPagesInFile < 0) := by
  unfold observeAlloc allocNeeded makeBoolSlice
  cases hl : mapLookup m p.fileIndex with
  | none =>
    by_cases hn : p.numberOfPagesInFile < 0 <;> simp [hn]
  | some s =>
    by_cases h0 : s.length = 0 <;>
      by_cases hn : p.numberOfPagesInFile < 0 <;> simp [h0, hn]

lemma observeAlloc_some {α : Type} (m : SeenMap) (p : RecognizedPage α)
    (m1 : SeenMap) (h : observeAlloc m p = some m1) :
    (allocNeeded m p.fileIndex = true ∧ 0 ≤ p.numberOfPagesInFile ∧
      m1 = mapInsert m p.fileIndex
        (List.replicate p.numberOfPagesInFile.toNat false)) ∨
    (allocNeeded m p.fileIndex = false ∧ m1 = m) := by
  cases hl : mapLookup m p.fileIndex with
  | none =>
    by_cases hn : p.numberOfPagesInFile < 0
    · simp [observeAlloc, makeBoolSlice, hl, hn] at h
    · simp [observeAlloc, makeBoolSlice, hl, hn] at h
      refine .inl ⟨by simp [allocNeeded, hl], by omega, ?_⟩
      exact h.symm
  | some s =>
    by_cases h0 : s.length = 0
    · by_cases hn : p.numberOfPagesInFile < 0
      · simp [observeAlloc, makeBoolSlice, hl, h0, hn] at h
      · simp [observeAlloc, makeBoolSlice, hl, h0, hn] at h
        refine .inl ⟨by simp [allocNeeded, hl, h0], by omega, ?_⟩
        exact h.symm
    · simp [observeAlloc, hl, h0] at h
      refine .inr ⟨by simp [allocNeeded, hl, h0], ?_⟩
      exact h.symm

/-- Newly allocated slots are all false: an allocation never marks a slot. -/
lemma slotTrue_insert_replicate (m : SeenMap) (f : Int) (n : Nat)
    (g : Int) (k : Nat)
    (h : slotTrue (mapInsert m f (List.replicate n false)) g k) :
    slotTrue m g k := by
  obtain ⟨s, hs, hk⟩ := h
  by_cases hg : g = f
  · subst hg
    rw [mapLookup_insert_self] at hs
    injection hs with hs
    subst hs
    rw [List.getElem?_replicate] at hk
    by_cases hkn : k < n <;> simp [hkn] at hk
  · rw [mapLookup_insert_ne _ _ _ _ hg] at hs
    exact ⟨s, hs, hk⟩

/-- With a non-positive page number the observation is just the allocation
step. -/
lemma observe_nonpositive {α : Type} (m : SeenMap) (p : RecognizedPage α)
    (hpn : p.pageNumber ≤ 0) : observe m p = observeAlloc m p := by
  unfold observe
  cases ha : observeAlloc m p with
  | none => rfl
  | some m1 =>
    simp only
    rw [if_neg (by omega)]

/-- With a positive page number the observation is the allocation step
followed by the slot write. -/
lemma observe_positive {α : Type} (m : SeenMap) (p : RecognizedPage α)
    (hpn : 0 < p.pageNumber) (m1 : SeenMap)
    (ha : observeAlloc m p = some m1) : observe m p = observeWrite m1 p := by
  simp only [observe, ha]
  rw [if_pos hpn]

/-- `C5` counterexample: a page with `pageNumber = 0` (an error placeholder)
whose `numberOfPagesInFile` is negative and whose file has no tracker entry
makes the allocation panic, so the page is NOT pushed onto the stream,
contradicting the claim that every such page is pushed. -/
theorem c5_counterexample :
    runPoll (α := Nat) 1 { fileIndex2HaveSeenPage := [], errorCount := 0 }
      [PollResponse.exchange 200
        (some [{ error := "e", fileIndex := 0, pageNumber := 0,
                 numberOfPagesInFile := -1, recognizedText := [],
                 base64Image := "" }])] = ([], .panicked) := by
  decide

/-- `C5` (amended): for a page with `pageNumber ≤ 0`, the observation panics
exactly when it triggers (re)allocation (absent fileIndex or empty sequence)
with a negative `numberOfPagesInFile`; whenever it does not panic, no slot of
any file's boolean sequence becomes true from the observation, and the page
is pushed onto the stream. Only pages with `pageNumber > 0` mark a slot,
namely slot `pageNumber - 1` of their file's sequence. -/
theorem c5_errorPlaceholder_amended {α : Type} (m : SeenMap)
    (p : RecognizedPage α) :
    (p.pageNumber ≤ 0 →
      (observe m p = none ↔
        (allocNeeded m p.fileIndex = true ∧ p.numberOfPagesInFile < 0))) ∧
    (p.pageNumber ≤ 0 → ∀ m', observe m p = some m' →
      ∀ f k, slotTrue m' f k → slotTrue m f k) ∧
    (∀ m' (rest : List (RecognizedPage α)), observe m p = some m' →
      processPages m (p :: rest) =
        (p :: (processPages m' rest).1, (processPages m' rest).2)) ∧
    (0 < p.pageNumber → ∀ m', observe m p = some m' →
      slotTrue m' p.fileIndex (p.pageNumber - 1).toNat) := by
  refine ⟨?_, ?_, ?_, ?_⟩
  · intro hpn
    rw [observe_nonpositive m p hpn]
    exact observeAlloc_none_iff m p
  · intro hpn m' hobs f k hslot
    rw [observe_nonpositive m p hpn] at hobs
    rcases observeAlloc_some m p m' hobs with ⟨-, -, rfl⟩ | ⟨-, rfl⟩
    · exact slotTrue_insert_replicate m p.fileIndex _ f k hslot
    · exact hslot
  · intro m' rest hobs
    simp only [processPages, hobs]
  · intro hpn m' hobs
    cases ha : observeAlloc m p with
    | none =>
      rw [observe, ha] at hobs
      exact absurd hobs (by simp)
    | some m1 =>
      rw [observe_positive m p hpn m1 ha] at hobs
      cases hl : mapLookup m1 p.fileIndex with
      | none => simp [observeWrite, hl] at hobs
      | some s =>
        simp only [observeWrite, hl] at hobs
        by_cases hb : (p.pageNumber - 1).toNat < s.length
        · rw [if_pos hb] at hobs
          injection hobs with h1
          subst h1
          exact ⟨s.set (p.pageNumber - 1).toNat true,
            mapLookup_insert_self .., List.getElem?_set_self hb⟩
        · rw [if_neg hb] at hobs
          exact absurd hobs (by simp)

/-- Witness for `c5_errorPlaceholder_amended`: a placeholder page with
`pageNumber = 0` on an untouched one-page file is pushed and leaves the
fresh all-false sequence unmarked. -/
theorem c5_errorPlaceholder_witness :
    processPages ([] : SeenMap)
      [({ error := "e", fileIndex := 0, pageNumber := 0,
          numberOfPagesInFile := 1, recognizedText := [],
          base64Image := "" } : RecognizedPage Nat)] =
      ([{ error := "e", fileIndex := 0, pageNumber := 0,
          numberOfPagesInFile := 1, recognizedText := [],
          base64Image := "" }], some [((0 : Int), [false])]) := by
  have h := (c5_errorPlaceholder_amended (α := Nat) []
    { error := "e", fileIndex := 0, pageNumber := 0,
      numberOfPagesInFile := 1, recognizedText := [],
      base64Image := "" }).2.2.1 [((0 : Int), [false])] [] (by decide)
  rw [h]
  rfl

lemma observeAlloc_of_allocNeeded {α : Type} (m : SeenMap)
    (p : RecognizedPage α) (h : allocNeeded m p.fileIndex = true)
    (hn : 0 ≤ p.numberOfPagesInFile) :
    observeAlloc m p = some (mapInsert m p.fileIndex
      (List.replicate p.numberOfPagesInFile.toNat false)) := by
  cases hl : mapLookup m p.fileIndex with
  | none => simp [observeAlloc, makeBoolSlice, hl, not_lt.mpr hn]
  | some s =>
    rw [allocNeeded, hl] at h
    simp only [decide_eq_true_eq] at h
    simp [observeAlloc, makeBoolSlice, hl, h, not_lt.mpr hn]

lemma c10_aux {α : Type} (f : Int) (obs : List (RecognizedPage α)) :
    ∀ m : SeenMap,
    (∀ p ∈ obs, p.fileIndex = f ∧ p.numberOfPagesInFile = 0 ∧
      p.pageNumber ≤ 0) →
    (mapLookup m f = none ∨ mapLookup m f = some []) →
    ∃ m', (processPages m obs).2 = some m' ∧
      (obs = [] → m' = m) ∧
      (obs ≠ [] → mapLookup m' f = some []) ∧
      (∀ g, g ≠ f → mapLookup m' g = mapLookup m g) := by
  induction obs with
  | nil =>
    intro m _ _
    exact ⟨m, rfl, fun _ => rfl, fun hne => absurd rfl hne, fun _ _ => rfl⟩
  | cons p rest ih =>
    intro m hall hinv
    obtain ⟨hf, hzero, hpn⟩ := hall p (List.mem_cons_self p rest)
    have halloc : allocNeeded m p.fileIndex = true := by
      rw [hf]
      rcases hinv with h | h <;> simp [allocNeeded, h]
    have hobs : observe m p = some (mapInsert m p.fileIndex []) := by
      rw [observe_nonpositive m p hpn,
        observeAlloc_of_allocNeeded m p halloc (by omega), hzero]
      rfl
    obtain ⟨m', hm', hnil, hne, hoth⟩ := ih (mapInsert m p.fileIndex [])
      (fun q hq => hall q (List.mem_cons_of_mem p hq))
      (by rw [hf, mapLookup_insert_self]; exact .inr rfl)
    refine ⟨m', ?_, fun h => absurd h (by simp), fun _ => ?_, fun g hg => ?_⟩
    · simp only [processPages, hobs]
      exact hm'
    · by_cases hr : rest = []
      · rw [hnil hr, hf, mapLookup_insert_self]
      · exact hne hr
    · rw [hoth g hg, mapLookup_insert_ne _ _ _ _ (hf ▸ hg)]

/-- `C10` counterexample: a file whose (only) observed page reports
`numberOfPagesInFile = 0` but carries `pageNumber = 1` does not leave a
zero-length sequence counted as complete — the slot write into the empty
sequence panics the goroutine, nothing further is tracked and the batch
never completes. -/
theorem c10_counterexample :
    runPoll (α := Nat) 1 { fileIndex2HaveSeenPage := [], errorCount := 0 }
      [PollResponse.exchange 200
        (some [{ error := "", fileIndex := 0, pageNumber := 1,
                 numberOfPagesInFile := 0, recognizedText := [],
                 base64Image := "" }])] = ([], .panicked) := by
  decide

/-- `C10` (amended): for a file whose observed pages all report
`numberOfPagesInFile = 0` AND non-positive page numbers, the tracker holds a
zero-length boolean sequence for that fileIndex, the all-slots-true check
holds vacuously and the file counts as complete toward batch completion,
with other files' entries untouched; but a page reporting zero pages with a
positive `pageNumber` instead panics the slot write (out of range on the
empty sequence) whenever it triggers allocation. -/
theorem c10_zeroPages_amended {α : Type} :
    (∀ (m : SeenMap) (p : RecognizedPage α),
      p.numberOfPagesInFile = 0 → 0 < p.pageNumber →
      allocNeeded m p.fileIndex = true → observe m p = none) ∧
    (∀ (f : Int) (obs : List (RecognizedPage α)) (m : SeenMap),
      obs ≠ [] →
      (∀ p ∈ obs, p.fileIndex = f ∧ p.numberOfPagesInFile = 0 ∧
        p.pageNumber ≤ 0) →
      mapLookup m f = none →
      ∃ m', (processPages m obs).2 = some m' ∧ mapLookup m' f = some [] ∧
        fileCounted m' f = true ∧
        ∀ g, g ≠ f → mapLookup m' g = mapLookup m g) := by
  constructor
  · intro m p hzero hpn halloc
    rw [observe_positive m p hpn _
      (observeAlloc_of_allocNeeded m p halloc (by omega))]
    rw [observeWrite, hzero]
    simp only [mapLookup_insert_self]
    rfl
  · intro f obs m hne hall hnone
    obtain ⟨m', hm', -, hsome, hoth⟩ := c10_aux f obs m hall (.inl hnone)
    refine ⟨m', hm', hsome hne, ?_, hoth⟩
    rw [fileCounted, hsome hne]
    rfl

/-- Witness for `c10_zeroPages_amended`: one placeholder page reporting zero
pages makes its file complete with an empty sequence. -/
theorem c10_zeroPages_witness :
    ∃ m', (processPages ([] : SeenMap)
        [({ error := "e", fileIndex := 0, pageNumber := -1,
            numberOfPagesInFile := 0, recognizedText := [],
            base64Image := "" } : RecognizedPage Nat)]).2 = some m' ∧
      mapLookup m' 0 = some [] ∧ fileCounted m' 0 = true ∧
      ∀ g, g ≠ (0 : Int) → mapLookup m' g = mapLookup ([] : SeenMap) g :=
  (c10_zeroPages_amended (α := Nat)).2 0
    [{ error := "e", fileIndex := 0, pageNumber := -1,
       numberOfPagesInFile := 0, recognizedText := [], base64Image := "" }]
    [] (by simp) (by intro p hp; rw [List.mem_singleton] at hp; subst hp
                     exact ⟨rfl, rfl, by decide⟩) rfl

/-- `C9`: the tracker's slot write is in bounds exactly under the
precondition `1 ≤ pageNumber ≤ length of the sequence held for that
fileIndex` (anything else is the panic branch), and the panic branch is
reachable: a poll batch whose first page sizes file 0 at one page and whose
second page claims `pageNumber = 2` (with an inconsistent
`numberOfPagesInFile = 2`) drives the slot write out of bounds, killing the
goroutine after pushing only the first page. -/
theorem c9_slotWrite_bounds :
    (∀ (α : Type) (m1 : SeenMap) (p : RecognizedPage α) (s : List Bool),
      0 < p.pageNumber → mapLookup m1 p.fileIndex = some s →
      ((∃ m2, observeWrite m1 p = some m2) ↔
        (1 ≤ p.pageNumber ∧ p.pageNumber ≤ (s.length : Int)))) ∧
    runPoll (α := Nat) 1 { fileIndex2HaveSeenPage := [], errorCount := 0 }
      [PollResponse.exchange 200
        (some [{ error := "", fileIndex := 0, pageNumber := 1,
                 numberOfPagesInFile := 1, recognizedText := [],
                 base64Image := "" },
               { error := "", fileIndex := 0, pageNumber := 2,
                 numberOfPagesInFile := 2, recognizedText := [],
                 base64Image := "" }])] =
      ([.push { error := "", fileIndex := 0, pageNumber := 1,
                numberOfPagesInFile := 1, recognizedText := [],
                base64Image := "" }], .panicked) := by
  constructor
  · intro α m1 p s hpn hl
    simp only [observeWrite, hl]
    by_cases hb : (p.pageNumber - 1).toNat < s.length
    · rw [if_pos hb]
      exact iff_of_true ⟨_, rfl⟩ ⟨by omega, by omega⟩
    · rw [if_neg hb]
      constructor
      · rintro ⟨m2, hm2⟩
        exact absurd hm2 (by simp)
      · rintro ⟨h1, h2⟩
        exact absurd hb (by push_neg; omega)
  · decide

/-- Witness for `c9_slotWrite_bounds`: for a one-slot sequence, the write of
page 1 is in bounds. -/
theorem c9_slotWrite_witness :
    ∃ m2, observeWrite [((0 : Int), [false])]
      ({ error := "", fileIndex := 0, pageNumber := 1,
         numberOfPagesInFile := 1, recognizedText := [],
         base64Image := "" } : RecognizedPage Nat) = some m2 :=
  (c9_slotWrite_bounds.1 Nat [((0 : Int), [false])]
    { error := "", fileIndex := 0, pageNumber := 1,
      numberOfPagesInFile := 1, recognizedText := [], base64Image := "" }
    [false] (by decide) rfl).mpr (by decide)

lemma closeCount_map_push {α : Type} (l : List (RecognizedPage α)) :
    closeCount (l.map .push) = 0 := by
  induction l with
  | nil => rfl
  | cons p rest ih => simp [closeCount, List.countP_cons] at *

lemma closeCount_append {α : Type} (t u : List (StreamEvent α)) :
    closeCount (t ++ u) = closeCount t + closeCount u :=
  List.countP_append ..

lemma pollStep_close_spec {α : Type} (n : Nat) (s : PollState)
    (r : PollResponse α) :
    (∀ s₁ evs, pollStep n s r = (evs, .cont s₁) → closeCount evs = 0) ∧
    (∀ res evs, pollStep n s r = (evs, .halt res) →
      (res.isClosed = true → ∃ pre, evs = pre ++ [.close] ∧ closeCount pre = 0) ∧
      (res.isClosed = false → closeCount evs = 0)) := by
  constructor
  · intro s₁ evs h
    cases r with
    | transportErr =>
      simp only [pollStep] at h
      split at h
      · exact absurd h (by simp)
      · injection h with h1 h2
        subst h1
        rfl
    | exchange c d =>
      simp only [pollStep] at h
      split at h
      · exact absurd h (by simp)
      · split at h
        · split at h
          · exact absurd h (by simp)
          · injection h with h1 h2
            subst h1
            rfl
        · cases d with
          | none =>
            simp only at h
            split at h
            · exact absurd h (by simp)
            · injection h with h1 h2
              subst h1
              rfl
          | some pages =>
            simp only at h
            split at h
            · exact absurd h (by simp)
            · split at h
              · exact absurd h (by simp)
              · injection h with h1 h2
                subst h1
                exact closeCount_map_push _
  · intro res evs h
    cases r with
    | transportErr =>
      simp only [pollStep] at h
      split at h
      · injection h with h1 h2
        subst h1
        injection h2 with h3
        subst h3
        exact ⟨fun _ => ⟨[], rfl, rfl⟩, fun hf => by simp [RunResult.isClosed] at hf⟩
      · exact absurd h (by simp)
    | exchange c d =>
      simp only [pollStep] at h
      split at h
      · injection h with h1 h2
        subst h1
        injection h2 with h3
        subst h3
        exact ⟨fun _ => ⟨[], rfl, rfl⟩, fun hf => by simp [RunResult.isClosed] at hf⟩
      · split at h
        · split at h
          · injection h with h1 h2
            subst h1
            injection h2 with h3
            subst h3
            exact ⟨fun _ => ⟨[], rfl, rfl⟩,
              fun hf => by simp [RunResult.isClosed] at hf⟩
          · exact absurd h (by simp)
        · cases d with
          | none =>
            simp only at h
            split at h
            · injection h with h1 h2
              subst h1
              injection h2 with h3
              subst h3
              exact ⟨fun _ => ⟨[], rfl, rfl⟩,
                fun hf => by simp [RunResult.isClosed] at hf⟩
            · exact absurd h (by simp)
          | some pages =>
            simp only at h
            split at h
            · injection h with h1 h2
              subst h1
              injection h2 with h3
              subst h3
              refine ⟨fun ht => by simp [RunResult.isClosed] at ht,
                fun _ => closeCount_map_push _⟩
            · split at h
              · injection h with h1 h2
                subst h1
                injection h2 with h3
                subst h3
                refine ⟨fun _ => ⟨_, rfl, closeCount_map_push _⟩,
                  fun hf => by simp [RunResult.isClosed] at hf⟩
              · exact absurd h (by simp)

lemma runPoll_close_spec {α : Type} (n : Nat)
    (script : List (PollResponse α)) :
    ∀ s : PollState,
      ((runPoll n s script).2.isClosed = true →
        ∃ pre, (runPoll n s script).1 = pre ++ [.close] ∧
          closeCount pre = 0) ∧
      ((runPoll n s script).2.isClosed = false →
        closeCount (runPoll n s script).1 = 0) := by
  induction script with
  | nil =>
    intro s
    exact ⟨fun ht => by simp [runPoll, RunResult.isClosed] at ht,
      fun _ => rfl⟩
  | cons r rest ih =>
    intro s
    rcases hps : pollStep n s r with ⟨evs, nxt⟩
    cases nxt with
    | halt res =>
      have hru : runPoll n s (r :: rest) = (evs, res) := by
        simp only [runPoll, hps]
      rw [hru]
      exact (pollStep_close_spec n s r).2 res evs hps
    | cont s₁ =>
      have hc0 : closeCount evs = 0 := (pollStep_close_spec n s r).1 s₁ evs hps
      have hru : runPoll n s (r :: rest) =
          (evs ++ (runPoll n s₁ rest).1, (runPoll n s₁ rest).2) := by
        simp only [runPoll, hps]
      rw [hru]
      refine ⟨fun ht => ?_, fun hf => ?_⟩
      · obtain ⟨pre, hpre, hcp⟩ := (ih s₁).1 ht
        exact ⟨evs ++ pre, by rw [hpre, List.append_assoc],
          by rw [closeCount_append, hc0, hcp]⟩
      · rw [closeCount_append, hc0, (ih s₁).2 hf]

/-- `C7`: along every terminating path of the background task — the
synchronous emission, completion, retry exhaustion, or a 401 during polling
(`res.isClosed`) — the stream trace ends with exactly one close event and no
event follows it; and on every run whatsoever at most one close appears, so
no page is ever pushed after a close (a non-closing run — script exhausted or
goroutine panic — contains no close at all). -/
theorem c7_closeOnce {α : Type} (fps : List (List Char))
    (rf : List Char → Option String) (i : InitialResult α)
    (script : List (PollResponse α)) (tr : List (StreamEvent α))
    (res : RunResult)
    (h : recognizeCfg fps rf i script = .ok (tr, res)) :
    closeCount tr ≤ 1 ∧
    (res.isClosed = true → ∃ pre, tr = pre ++ [.close] ∧ closeCount pre = 0) ∧
    (res.isClosed = false → closeCount tr = 0) := by
  have key : (res.isClosed = true →
      ∃ pre, tr = pre ++ [.close] ∧ closeCount pre = 0) ∧
      (res.isClosed = false → closeCount tr = 0) := by
    cases hm : inferMimeTypes fps with
    | error fp =>
      simp only [recognizeCfg, hm] at h
      exact absurd h (by simp)
    | ok ms =>
    cases hr : readAllFiles rf fps with
    | error fp =>
      simp only [recognizeCfg, hm, hr] at h
      exact absurd h (by simp)
    | ok cs =>
    cases i with
    | transportErr =>
      simp only [recognizeCfg, hm, hr] at h
      exact absurd h (by simp)
    | response status b decoded =>
      simp only [recognizeCfg, hm, hr] at h
      by_cases h401 : status = 401
      · rw [if_pos h401] at h
        exact absurd h (by simp)
      · rw [if_neg h401] at h
        by_cases h200 : status = 200
        · rw [if_neg (not_not_intro h200)] at h
          cases decoded with
          | none =>
            simp only at h
            exact absurd h (by simp)
          | some body =>
            simp only at h
            by_cases hurl : body.pollingURL = ""
            · rw [if_pos hurl] at h
              injection h with h1
              injection h1 with h2 h3
              subst h2
              subst h3
              exact ⟨fun _ => ⟨[.push _], rfl, rfl⟩,
                fun hf => by simp [RunResult.isClosed] at hf⟩
            · rw [if_neg hurl] at h
              injection h with h1
              have hs := runPoll_close_spec fps.length script
                { fileIndex2HaveSeenPage := [], errorCount := 0 }
              rw [h1] at hs
              exact hs
        · rw [if_pos h200] at h
          exact absurd h (by simp)
  refine ⟨?_, key.1, key.2⟩
  cases hcl : res.isClosed with
  | false =>
    rw [key.2 hcl]
    omega
  | true =>
    obtain ⟨pre, hpre, hc⟩ := key.1 hcl
    rw [hpre, closeCount_append, hc]
    rfl

/-- Witness for `c7_closeOnce`: a run that completes after one batch closes
exactly once, at the end. -/
theorem c7_closeOnce_witness :
    closeCount (α := Nat)
      [.push { error := "", fileIndex := 0, pageNumber := 1,
               numberOfPagesInFile := 1, recognizedText := [],
               base64Image := "" }, .close] ≤ 1 :=
  (c7_closeOnce (α := Nat) ["b.gif".toList] (fun _ => some "")
    (.response 200 true
      (some { pollingURL := "u", recognizedText := [], base64Image := "" }))
    [PollResponse.exchange 200
      (some [{ error := "", fileIndex := 0, pageNumber := 1,
               numberOfPagesInFile := 1, recognizedText := [],
               base64Image := "" }])]
    [.push { error := "", fileIndex := 0, pageNumber := 1,
             numberOfPagesInFile := 1, recognizedText := [],
             base64Image := "" }, .close] .closedDone rfl).1

lemma pushedPages_append {α : Type} (t u : List (StreamEvent α)) :
    pushedPages (t ++ u) = pushedPages t ++ pushedPages u :=
  List.filterMap_append ..

lemma pushedPages_map_push {α : Type} (l : List (RecognizedPage α)) :
    pushedPages (l.map .push) = l := by
  induction l with
  | nil => rfl
  | cons p rest ih =>
    simp only [List.map_cons, pushedPages, List.filterMap_cons] at *
    rw [ih]

lemma batchesOf_cons_join {α : Type} (r : PollResponse α)
    (l : List (PollResponse α)) :
    (batchesOf (r :: l)).flatten = (batchesOf [r]).flatten ++ (batchesOf l).flatten := by
  cases hfr : pollBatch r with
  | none => simp [batchesOf, List.filterMap_cons, hfr]
  | some b => simp [batchesOf, List.filterMap_cons, hfr]

lemma processPages_pushed {α : Type} (ps : List (RecognizedPage α)) :
    ∀ m : SeenMap,
    (∀ m', (processPages m ps).2 = some m' → (processPages m ps).1 = ps) ∧
    ((processPages m ps).2 = none →
      ∃ done p remain, ps = done ++ p :: remain ∧
        (processPages m ps).1 = done) := by
  induction ps with
  | nil =>
    intro m
    exact ⟨fun _ _ => rfl, fun hn => absurd hn (by simp [processPages])⟩
  | cons p rest ih =>
    intro m
    cases hobs : observe m p with
    | none =>
      have heq : processPages m (p :: rest) =
          ([], none) := by simp only [processPages, hobs]
      rw [heq]
      exact ⟨fun m' hm' => absurd hm' (by simp),
        fun _ => ⟨[], p, rest, rfl, rfl⟩⟩
    | some m1 =>
      have heq : processPages m (p :: rest) =
          (p :: (processPages m1 rest).1, (processPages m1 rest).2) := by
        simp only [processPages, hobs]
      rw [heq]
      constructor
      · intro m' hm'
        simp only
        rw [(ih m1).1 m' hm']
      · intro hn
        simp only at hn
        obtain ⟨done, q, remain, hsplit, hfst⟩ := (ih m1).2 hn
        exact ⟨p :: done, q, remain, by rw [hsplit]; rfl, by simp only; rw [hfst]⟩

lemma batchesOf_batch_flatten {α : Type} (pages : List (RecognizedPage α)) :
    (batchesOf [PollResponse.exchange 200 (some pages)]).flatten = pages := by
  simp [batchesOf, pollBatch, List.filterMap_cons]

lemma batchesOf_non200_flatten {α : Type} (c : Nat)
    (d : Option (List (RecognizedPage α))) (h : c ≠ 200) :
    (batchesOf [PollResponse.exchange c d]).flatten = [] := by
  cases d with
  | none => rfl
  | some ps => simp [batchesOf, pollBatch, List.filterMap_cons, h]

lemma pollStep_pushed_spec {α : Type} (n : Nat) (s : PollState)
    (r : PollResponse α) :
    (∀ evs s₁, pollStep n s r = (evs, .cont s₁) →
      pushedPages evs = (batchesOf [r]).flatten) ∧
    (∀ evs res, pollStep n s r = (evs, .halt res) → res ≠ .panicked →
      pushedPages evs = (batchesOf [r]).flatten) ∧
    (∀ evs, pollStep n s r = (evs, .halt .panicked) →
      ∃ batch done p remain, r = .exchange 200 (some batch) ∧
        batch = done ++ p :: remain ∧ pushedPages evs = done) := by
  refine ⟨?_, ?_, ?_⟩
  · intro evs s₁ h
    cases r with
    | transportErr =>
      simp only [pollStep] at h
      split at h
      · exact absurd h (by simp)
      · injection h with h1 h2
        subst h1
        rfl
    | exchange c d =>
      simp only [pollStep] at h
      split at h
      · exact absurd h (by simp)
      · rename_i h401
        split at h
        · rename_i h200
          split at h
          · exact absurd h (by simp)
          · injection h with h1 h2
            subst h1
            rw [batchesOf_non200_flatten c d h200]
            rfl
        · rename_i h200
          have hc : c = 200 := by omega
          subst hc
          cases d with
          | none =>
            simp only at h
            split at h
            · exact absurd h (by simp)
            · injection h with h1 h2
              subst h1
              rfl
          | some pages =>
            simp only at h
            split at h
            · exact absurd h (by simp)
            · split at h
              · exact absurd h (by simp)
              · rename_i hpp _
                injection h with h1 h2
                subst h1
                rw [pushedPages_map_push, batchesOf_batch_flatten]
                exact (processPages_pushed pages s.fileIndex2HaveSeenPage).1 _ hpp
  · intro evs res h hnp
    cases r with
    | transportErr =>
      simp only [pollStep] at h
      split at h
      · injection h with h1 h2
        subst h1
        rfl
      · exact absurd h (by simp)
    | exchange c d =>
      simp only [pollStep] at h
      split at h
      · rename_i h401
        injection h with h1 h2
        subst h1
        subst h401
        rw [batchesOf_non200_flatten 401 d (by omega)]
        rfl
      · rename_i h401
        split at h
        · rename_i h200
          split at h
          · injection h with h1 h2
            subst h1
            rw [batchesOf_non200_flatten c d h200]
            rfl
          · exact absurd h (by simp)
        · rename_i h200
          have hc : c = 200 := by omega
          subst hc
          cases d with
          | none =>
            simp only at h
            split at h
            · injection h with h1 h2
              subst h1
              rfl
            · exact absurd h (by simp)
          | some pages =>
            simp only at h
            split at h
            · injection h with h1 h2
              injection h2 with h3
              exact absurd h3.symm hnp
            · split at h
              · rename_i hpp _
                injection h with h1 h2
                subst h1
                rw [pushedPages_append, pushedPages_map_push,
                  batchesOf_batch_flatten,
                  show pushedPages (α := α) [.close] = [] from rfl,
                  List.append_nil]
                exact (processPages_pushed pages s.fileIndex2HaveSeenPage).1 _ hpp
              · exact absurd h (by simp)
  · intro evs h
    cases r with
    | transportErr =>
      simp only [pollStep] at h
      split at h
      · injection h with h1 h2
        injection h2 with h3
        exact absurd h3 (by simp)
      · exact absurd h (by simp)
    | exchange c d =>
      simp only [pollStep] at h
      split at h
      · injection h with h1 h2
        injection h2 with h3
        exact absurd h3 (by simp)
      · split at h
        · split at h
          · injection h with h1 h2
            injection h2 with h3
            exact absurd h3 (by simp)
          · exact absurd h (by simp)
        · rename_i h200
          have hc : c = 200 := by omega
          subst hc
          cases d with
          | none =>
            simp only at h
            split at h
            · injection h with h1 h2
              injection h2 with h3
              exact absurd h3 (by simp)
            · exact absurd h (by simp)
          | some pages =>
            simp only at h
            split at h
            · rename_i hpp
              injection h with h1 h2
              subst h1
              obtain ⟨done, p, remain, hsplit, hfst⟩ :=
                (processPages_pushed pages s.fileIndex2HaveSeenPage).2 hpp
              exact ⟨pages, done, p, remain, rfl, hsplit,
                by rw [pushedPages_map_push]; exact hfst⟩
            · split at h
              · injection h with h1 h2
                injection h2 with h3
                exact absurd h3 (by simp)
              · exact absurd h (by simp)

/-- `C8` counterexample: the poll batch `[page 1 of 1, page 3 of 1]` is
successfully decoded, but the pages pushed are NOT the whole batch — the
second page's slot write is out of range, the goroutine dies, and only the
first page reaches the stream. -/
theorem c8_counterexample :
    pushedPages (runPoll (α := Nat) 1
        { fileIndex2HaveSeenPage := [], errorCount := 0 }
        [PollResponse.exchange 200
          (some [{ error := "x", fileIndex := 0, pageNumber := 1,
                   numberOfPagesInFile := 1, recognizedText := [],
                   base64Image := "" },
                 { error := "y", fileIndex := 0, pageNumber := 3,
                   numberOfPagesInFile := 1, recognizedText := [],
                   base64Image := "" }])]).1 ≠
      (batchesOf [PollResponse.exchange (α := Nat) 200
        (some [{ error := "x", fileIndex := 0, pageNumber := 1,
                 numberOfPagesInFile := 1, recognizedText := [],
                 base64Image := "" },
               { error := "y", fileIndex := 0, pageNumber := 3,
                 numberOfPagesInFile := 1, recognizedText := [],
                 base64Image := "" }])]).flatten := by
  decide

/-- `C8` (amended): the script splits into the consumed prefix and the
unconsumed remainder; on every non-panicking run the pages pushed onto the
stream are exactly, and in order, the concatenation of the decoded batches
of the consumed prefix (so poll batches are processed in request order with
no cross-file or cross-page reordering); on a panicking run the last,
panicking batch contributes exactly the pages preceding the out-of-bounds
page, still in order. -/
theorem c8_ordering_amended {α : Type} (n : Nat)
    (script : List (PollResponse α)) :
    ∀ s : PollState,
    ∃ consumed rest, script = consumed ++ rest ∧
      ((runPoll n s script).2 ≠ .panicked →
        pushedPages (runPoll n s script).1 = (batchesOf consumed).flatten) ∧
      ((runPoll n s script).2 = .panicked →
        ∃ batch done p remain rest₂,
          rest = PollResponse.exchange 200 (some batch) :: rest₂ ∧
          batch = done ++ p :: remain ∧
          pushedPages (runPoll n s script).1 =
            (batchesOf consumed).flatten ++ done) := by
  induction script with
  | nil =>
    intro s
    refine ⟨[], [], rfl, fun _ => rfl, fun hp => ?_⟩
    simp [runPoll] at hp
  | cons r rest₀ ih =>
    intro s
    rcases hps : pollStep n s r with ⟨evs, nxt⟩
    cases nxt with
    | halt res =>
      have hru : runPoll n s (r :: rest₀) = (evs, res) := by
        simp only [runPoll, hps]
      by_cases hpan : res = .panicked
      · subst hpan
        obtain ⟨batch, done, p, remain, hr, hb, hpush⟩ :=
          (pollStep_pushed_spec n s r).2.2 evs hps
        refine ⟨[], r :: rest₀, rfl,
          fun hnp => absurd (by rw [hru]) hnp,
          fun _ => ⟨batch, done, p, remain, rest₀, by rw [hr], hb, ?_⟩⟩
        simp only [hru]
        simpa using hpush
      · refine ⟨[r], rest₀, rfl, fun _ => ?_,
          fun hp => absurd (by simp only [hru] at hp; exact hp) hpan⟩
        simp only [hru]
        exact (pollStep_pushed_spec n s r).2.1 evs res hps hpan
    | cont s₁ =>
      have hru : runPoll n s (r :: rest₀) =
          (evs ++ (runPoll n s₁ rest₀).1, (runPoll n s₁ rest₀).2) := by
        simp only [runPoll, hps]
      have hpe : pushedPages evs = (batchesOf [r]).flatten :=
        (pollStep_pushed_spec n s r).1 evs s₁ hps
      obtain ⟨consumed', rest', heq, h1, h2⟩ := ih s₁
      refine ⟨r :: consumed', rest', by rw [heq]; rfl,
        fun hnp => ?_, fun hp => ?_⟩
      · have hnp' : (runPoll n s₁ rest₀).2 ≠ .panicked := by
          simp only [hru] at hnp
          exact hnp
        simp only [hru]
        rw [pushedPages_append, hpe, h1 hnp', batchesOf_cons_join r consumed']
      · have hp' : (runPoll n s₁ rest₀).2 = .panicked := by
          simp only [hru] at hp
          exact hp
        obtain ⟨batch, done, p, remain, rest₂, hrest, hb, hpush⟩ := h2 hp'
        refine ⟨batch, done, p, remain, rest₂, hrest, hb, ?_⟩
        simp only [hru]
        rw [pushedPages_append, hpe, hpush, batchesOf_cons_join r consumed',
          List.append_assoc]

/-- Witness for `c8_ordering_amended`: a completing single-batch run pushes
exactly that batch. -/
theorem c8_ordering_witness :
    ∃ consumed rest,
      ([PollResponse.exchange (α := Nat) 200
        (some [{ error := "", fileIndex := 0, pageNumber := 1,
                 numberOfPagesInFile := 1, recognizedText := [42],
                 base64Image := "" }])] : List (PollResponse Nat)) =
        consumed ++ rest ∧
      pushedPages (runPoll (α := Nat) 1
        { fileIndex2HaveSeenPage := [], errorCount := 0 }
        [PollResponse.exchange 200
          (some [{ error := "", fileIndex := 0, pageNumber := 1,
                   numberOfPagesInFile := 1, recognizedText := [42],
                   base64Image := "" }])]).1 = (batchesOf consumed).flatten := by
  obtain ⟨consumed, rest, hsplit, h1, h2⟩ :=
    c8_ordering_amended (α := Nat) 1
      [PollResponse.exchange 200
        (some [{ error := "", fileIndex := 0, pageNumber := 1,
                 numberOfPagesInFile := 1, recognizedText := [42],
                 base64Image := "" }])]
      { fileIndex2HaveSeenPage := [], errorCount := 0 }
  exact ⟨consumed, rest, hsplit, h1 (by decide)⟩

end Sight
